import Mathlib

/-!
Verification of the trajectory aggregation pipeline of the TrajectoryParser
repository (HPOBenchExperimentUtils).  The definitions below are a shallow
embedding of the Python code in `HPOBenchExperimentUtils/tabular_evals.py` and
`HPOBenchExperimentUtils/analysis/stats_generation.py`:

* `df_per_optimizer` embeds the normalizer of the same name
  (`tabular_evals.py`, lines 83-124);
* `truncateSeed`, `lastInc` and `reportsNotEnoughRuns` embed the per-seed
  sentinel/sort/drop/tail(1) step of `save_median_table_tabular`
  (`tabular_evals.py`, lines 188-205);
* `argminList`, `bestOpt` and `markBest` embed the best-optimizer selection
  and bold markup (`tabular_evals.py`, lines 248-268);
* `plotFidelsDirCheck` and `tabularDirHandling` embed the handling of an
  absent benchmark directory (`stats_generation.py`, lines 26-27 and
  `tabular_evals.py`, lines 155-159);
* `fingerprint` and `dcInsert` embed the configuration fingerprinting of
  `plot_correlation` (`stats_generation.py`, lines 182-187).

Numeric fields use `ℚ`; the objective-value column uses `WithTop ℚ` so that
the sentinel value `np.inf` is representable as `⊤`.
-/

namespace HPOBench

/-- One Trajectory Record: one evaluation event of one optimizer run, as read
from a run-history JSON file.  `configuration` and `fidelity` are insertion
ordered key-value mappings. -/
structure TrajRecord where
  configuration : List (String × Int)
  fidelity : List (String × ℚ)
  function_value : ℚ
  cost : ℚ
  total_objective_costs : ℚ
  total_time_used : ℚ
  start_time : ℚ
  finish_time : ℚ
  deriving DecidableEq

/-- One row of the Normalized Series built by `df_per_optimizer`; the column
order matches the `dataframe` dict of `tabular_evals.py`, lines 87-97. -/
structure Row where
  optimizer : String
  id : Nat
  total_time_used : ℚ
  total_objective_costs : ℚ
  function_values : WithTop ℚ
  fidel_values : ℚ
  costs : ℚ
  start_time : ℚ
  finish_time : ℚ
  deriving DecidableEq

/-- Fidelity extraction as written in the source
(`record['fidelity'][list(record['fidelity'])[0]]`, `tabular_evals.py` line
111 and `stats_generation.py` line 185): take the first key of the mapping and
look its value up.  On an empty mapping the index access `[0]` raises, which
the embedding renders as `none`; on a mapping with several entries the first
key is silently used. -/
def fidelExtract : List (String × ℚ) → Option ℚ
  | [] => none
  | (_, v) :: _ => some v

/-- The regret normalizer of `df_per_optimizer`
(`normalizer = 1 if y_max is None else y_max - y_best`, line 99). -/
def dfNormalizer (y_best : ℚ) (y_max : Option ℚ) : ℚ :=
  match y_max with
  | none => 1
  | some m => m - y_best

/-- One record of `traj[1:]` turned into one row of the Normalized Series
(`tabular_evals.py`, lines 103-121).  The computation fails (`none`) exactly
when the fidelity extraction fails. -/
def recordToRow (key : String) (id : Nat) (y_best normalizer : ℚ)
    (r : TrajRecord) : Option Row :=
  (fidelExtract r.fidelity).map fun fv =>
    { optimizer := key
      id := id
      total_time_used := r.total_time_used
      total_objective_costs := r.total_objective_costs
      function_values := (((r.function_value - y_best) / normalizer : ℚ) : WithTop ℚ)
      fidel_values := fv
      costs := r.cost
      start_time := r.start_time
      finish_time := r.finish_time }

/-- Fallible map over a list: the embedding of a Python loop that raises as
soon as one element raises. -/
def optionMapList (f : α → Option β) : List α → Option (List β)
  | [] => some []
  | a :: as =>
    match f a, optionMapList f as with
    | some b, some bs => some (b :: bs)
    | _, _ => none

/-- The rows one trajectory contributes to the Normalized Series: every record
except the first (`traj[1:]`), each turned into a row. -/
def trajRows (key : String) (y_best normalizer : ℚ) (id : Nat)
    (traj : List TrajRecord) : Option (List Row) :=
  optionMapList (recordToRow key id y_best normalizer) (traj.drop 1)

/-- The `for id, traj in enumerate(unvalidated_trajectories)` loop of
`df_per_optimizer`: the flat series extends trajectory by trajectory, ids
counting up from `id`. -/
def dfRowsFrom (key : String) (y_best normalizer : ℚ) (id : Nat) :
    List (List TrajRecord) → Option (List Row)
  | [] => some []
  | traj :: rest =>
    match trajRows key y_best normalizer id traj,
        dfRowsFrom key y_best normalizer (id + 1) rest with
    | some rs, some rss => some (rs ++ rss)
    | _, _ => none

/-- The normalizer `df_per_optimizer` (`tabular_evals.py`, lines 83-124):
builds the flat Normalized Series from the raw trajectory lists. -/
def df_per_optimizer (key : String) (unvalidated_trajectories : List (List TrajRecord))
    (y_best : ℚ) (y_max : Option ℚ) : Option (List Row) :=
  dfRowsFrom key y_best (dfNormalizer y_best y_max) 0 unvalidated_trajectories

/-! ### Aligner/Truncator (`save_median_table_tabular`, lines 188-205) -/

/-- Comparison by `total_time_used`, the sort key of
`df.sort_values(by='total_time_used')`. -/
def ttuLE (a b : Row) : Prop := a.total_time_used ≤ b.total_time_used

instance : DecidableRel ttuLE :=
  fun a b => inferInstanceAs (Decidable (a.total_time_used ≤ b.total_time_used))

instance : IsTotal Row ttuLE := ⟨fun a b => le_total a.total_time_used b.total_time_used⟩

instance : IsTrans Row ttuLE := ⟨fun _ _ _ h1 h2 => le_trans h1 h2⟩

/-- Ascending sort by `total_time_used`. -/
def sortTTU (l : List Row) : List Row := List.insertionSort ttuLE l

/-- The seed's maximum observed fidelity, `df["fidel_values"].max()`.  pandas
yields NaN on an empty column; the `0` default of the first equation is
unreachable in the embedded code path, where the per-seed frame is nonempty. -/
def fidelMax : List Row → ℚ
  | [] => 0
  | r :: rs => List.foldl max r.fidel_values (rs.map Row.fidel_values)

/-- The synthetic row appended per seed, `tabular_evals.py` lines 191-195:
`[[key, unique_id, 0, 0, np.inf, df["fidel_values"].max(), 0, 0, 1]]` laid
onto the columns `(optimizer, id, total_time_used, total_objective_costs,
function_values, fidel_values, costs, start_time, finish_time)`. -/
def sentinelRow (key : String) (id : Nat) (maxFidel : ℚ) : Row :=
  { optimizer := key
    id := id
    total_time_used := 0
    total_objective_costs := 0
    function_values := ⊤
    fidel_values := maxFidel
    costs := 0
    start_time := 0
    finish_time := 1 }

/-- A row survives `df.drop(df[df["total_time_used"] > cut_time_step].index)`
exactly when its `total_time_used` does not exceed the cut. -/
def keptAtCut (cut : ℚ) (r : Row) : Bool := ! decide (r.total_time_used > cut)

/-- The per-seed aligner/truncator (`tabular_evals.py`, lines 191-198): append
the sentinel row, sort ascending by `total_time_used`, drop every row past the
cut. -/
def truncateSeed (key : String) (id : Nat) (cut : ℚ) (rows : List Row) : List Row :=
  (sortTTU (rows ++ [sentinelRow key id (fidelMax rows)])).filter (keptAtCut cut)

/-- `df.tail(1)`: the last row as a one-row frame, empty when the frame is
empty. -/
def tail1 (l : List Row) : List Row :=
  match l.getLast? with
  | none => []
  | some r => [r]

/-- `last_inc = df.tail(1)` after truncation: the incumbent at the budget for
one seed (`tabular_evals.py`, line 199). -/
def lastInc (key : String) (id : Nat) (cut : ℚ) (rows : List Row) : List Row :=
  tail1 (truncateSeed key id cut rows)

/-- The `if len(last_inc) < 1:` report of `tabular_evals.py`, lines 200-203:
`true` exactly when the "not enough runs at timestep" message is printed. -/
def reportsNotEnoughRuns (key : String) (id : Nat) (cut : ℚ) (rows : List Row) : Bool :=
  decide ((lastInc key id cut rows).length < 1)

/-! ### Aggregator: best-optimizer selection (`save_median_table_tabular`,
lines 248-268).  The final table of averaged medians is embedded as an
association list `List (String × ℚ)` in the index order of the pandas frame;
`groupby` and series alignment keep that index sorted by optimizer name. -/

/-- `numpy.argmin` over a column: the index of the first occurrence of the
minimum (0 on an empty column). -/
def argminList : List ℚ → Nat
  | [] => 0
  | [_] => 0
  | v :: w :: vs =>
    if (w :: vs).getD (argminList (w :: vs)) 0 < v then argminList (w :: vs) + 1 else 0

/-- `opt_keys = list(result_df.index); opt_keys.sort()` (lines 248-249). -/
def optKeysSorted (table : List (String × ℚ)) : List String :=
  List.insertionSort (fun a b : String => a ≤ b) (table.map Prod.fst)

/-- `best_opt = opt_keys[result_df["function_values_median"].argmin()]`
(line 252); the out-of-range default `""` is unreachable for a nonempty
table. -/
def bestOpt (table : List (String × ℚ)) : String :=
  (optKeysSorted table).getD (argminList (table.map Prod.snd)) ""

/-- The bold markup of lines 266-267: `val = r"textbf{{{}}}".format(val)`
exactly for the best optimizer. -/
def markBest (table : List (String × ℚ)) (opt : String) (val : String) : String :=
  if opt = bestOpt table then "textbf\x7b" ++ val ++ "\x7d" else val

/-! ### Handling of an absent benchmark directory -/

/-- `assert input_dir.is_dir(), f'Result folder doesn\x22t exist: ...'` in
`plot_fidels` (`stats_generation.py`, lines 26-27): an `AssertionError` aborts
the invocation when the directory is absent. -/
def plotFidelsDirCheck (dirExists : Bool) : Except String Unit :=
  if dirExists then Except.ok () else Except.error "AssertionError"

/-- What one iteration of the benchmark loop of `save_median_table_tabular`
does about a missing directory: whether the condition was printed, and whether
the benchmark was skipped. -/
structure DirHandling where
  reported : Bool
  skipped : Bool
  deriving DecidableEq

/-- `tabular_evals.py`, lines 157-159: `if not input_dir.is_dir(): print(...)`
with the `continue` commented out — the absence is printed but the benchmark
is never skipped. -/
def tabularDirHandling (dirExists : Bool) : DirHandling :=
  { reported := ! dirExists, skipped := false }

/-- The benchmark loop of `save_median_table_tabular` (lines 153-159) applied
to a batch of benchmarks tagged with whether their directory exists: every
benchmark is handled, none is skipped. -/
def tabularBatch (benchs : List (String × Bool)) : List (String × DirHandling) :=
  benchs.map fun p => (p.1, tabularDirHandling p.2)

/-! ### Correlation Engine (`plot_correlation`, `stats_generation.py`,
lines 182-187) -/

/-- Key order on configuration entries, used by
`json.dumps(record["configuration"], sort_keys=True)`. -/
def keyPairLE (a b : String × Int) : Prop := a.1 ≤ b.1

instance : DecidableRel keyPairLE := fun a b => inferInstanceAs (Decidable (a.1 ≤ b.1))

instance : IsTotal (String × Int) keyPairLE := ⟨fun a b => le_total a.1 b.1⟩

instance : IsTrans (String × Int) keyPairLE := ⟨fun _ _ _ h1 h2 => le_trans h1 h2⟩

/-- Strict key order on configuration entries. -/
def keyPairLT (a b : String × Int) : Prop := a.1 < b.1

instance : IsAntisymm (String × Int) keyPairLT := ⟨fun _ _ h1 h2 => absurd h2 (lt_asymm h1)⟩

/-- One `"key": value` piece of the JSON serialization. -/
def serializeEntry (p : String × Int) : String :=
  "\x22" ++ p.1 ++ "\x22: " ++ toString p.2

/-- The configuration fingerprint
`c = json.dumps(record["configuration"], sort_keys=True)` (line 184): the
entries are sorted by key before serialization. -/
def fingerprint (cfg : List (String × Int)) : String :=
  "\x7b" ++
    String.intercalate ", " ((List.insertionSort keyPairLE cfg).map serializeEntry) ++
    "\x7d"

/-- Update of the inner fidelity-to-value dict, `conf_dc[c][f] = ...`. -/
def fidelUpdate (f v : ℚ) : List (ℚ × ℚ) → List (ℚ × ℚ)
  | [] => [(f, v)]
  | (f0, v0) :: rest =>
    if f0 = f then (f0, v) :: rest else (f0, v0) :: fidelUpdate f v rest

/-- One record entering the correlation table,
`conf_dc[c][f] = record["function_value"]` (line 187), with `c` the
fingerprint already computed: the outer dict is keyed by the fingerprint
string. -/
def dcInsert (c : String) (f v : ℚ) :
    List (String × List (ℚ × ℚ)) → List (String × List (ℚ × ℚ))
  | [] => [(c, [(f, v)])]
  | (k, obs) :: rest =>
    if k = c then (k, fidelUpdate f v obs) :: rest else (k, obs) :: dcInsert c f v rest

/-! ### Concrete sample data used by the witness theorems -/

/-- A well-formed sample record (fidelity mapping with exactly one entry). -/
def sampleRec : TrajRecord :=
  { configuration := [("x", 1), ("y", 2)]
    fidelity := [("budget", 9)]
    function_value := 5
    cost := 2
    total_objective_costs := 2
    total_time_used := 10
    start_time := 0
    finish_time := 2 }

/-- A sample row whose `total_time_used` lies beyond the sample budget cut. -/
def lateRow : Row :=
  { optimizer := "rs"
    id := 0
    total_time_used := 1000
    total_objective_costs := 3
    function_values := (7 : ℚ)
    fidel_values := 3
    costs := 2
    start_time := 0
    finish_time := 4 }

/-- A sample row that survives the sample budget cut. -/
def earlyRow : Row :=
  { optimizer := "rs"
    id := 0
    total_time_used := 5
    total_objective_costs := 1
    function_values := (2 : ℚ)
    fidel_values := 1
    costs := 1
    start_time := 0
    finish_time := 1 }

/-! ## Helper lemmas -/

theorem optionMapList_length {α β : Type} {f : α → Option β} :
    ∀ {l : List α} {bs : List β}, optionMapList f l = some bs → bs.length = l.length
  | [], bs, h => by
    simp only [optionMapList, Option.some.injEq] at h
    subst h
    rfl
  | a :: as, bs, h => by
    simp only [optionMapList] at h
    cases hfa : f a with
    | none => rw [hfa] at h; exact absurd h (by simp)
    | some b =>
      rw [hfa] at h
      cases hrest : optionMapList f as with
      | none => rw [hrest] at h; exact absurd h (by simp)
      | some bs' =>
        rw [hrest] at h
        simp only [Option.some.injEq] at h
        subst h
        simp [optionMapList_length hrest]

theorem trajRows_length {key : String} {y_best normalizer : ℚ} {id : Nat}
    {traj : List TrajRecord} {rs : List Row}
    (h : trajRows key y_best normalizer id traj = some rs) :
    rs.length = traj.length - 1 := by
  have := optionMapList_length h
  simpa [List.length_drop] using this

theorem dfRowsFrom_length {key : String} {y_best normalizer : ℚ} :
    ∀ {id : Nat} {trajs : List (List TrajRecord)} {rows : List Row},
      dfRowsFrom key y_best normalizer id trajs = some rows →
      rows.length = (trajs.map fun t => t.length - 1).sum
  | _, [], rows, h => by
    simp only [dfRowsFrom, Option.some.injEq] at h
    subst h
    rfl
  | id, traj :: rest, rows, h => by
    simp only [dfRowsFrom] at h
    cases h1 : trajRows key y_best normalizer id traj with
    | none => rw [h1] at h; exact absurd h (by simp)
    | some rs =>
      rw [h1] at h
      cases h2 : dfRowsFrom key y_best normalizer (id + 1) rest with
      | none => rw [h2] at h; exact absurd h (by simp)
      | some rss =>
        rw [h2] at h
        simp only [Option.some.injEq] at h
        subst h
        simp [trajRows_length h1, dfRowsFrom_length h2]

theorem keptAtCut_iff {cut : ℚ} {r : Row} :
    keptAtCut cut r = true ↔ r.total_time_used ≤ cut := by
  simp [keptAtCut, not_lt]

theorem truncateSeed_sorted (key : String) (id : Nat) (cut : ℚ) (rows : List Row) :
    List.Sorted ttuLE (truncateSeed key id cut rows) :=
  (List.sorted_insertionSort ttuLE _).filter (keptAtCut cut)

theorem truncateSeed_perm (key : String) (id : Nat) (cut : ℚ) (rows : List Row) :
    (truncateSeed key id cut rows).Perm
      ((rows ++ [sentinelRow key id (fidelMax rows)]).filter (keptAtCut cut)) :=
  (List.perm_insertionSort ttuLE _).filter (keptAtCut cut)

theorem truncateSeed_mem_le {key : String} {id : Nat} {cut : ℚ} {rows : List Row}
    {r : Row} (h : r ∈ truncateSeed key id cut rows) : r.total_time_used ≤ cut :=
  keptAtCut_iff.mp (List.of_mem_filter h)

theorem filter_cut_le_cut {c1 c2 : ℚ} (hc : c1 ≤ c2) :
    ∀ l : List Row, List.Sorted ttuLE l →
      ∃ t, l.filter (keptAtCut c1) ++ t = l.filter (keptAtCut c2)
  | [], _ => ⟨[], rfl⟩
  | a :: l, hs => by
    by_cases ha : a.total_time_used ≤ c1
    · obtain ⟨t, ht⟩ := filter_cut_le_cut hc l hs.of_cons
      refine ⟨t, ?_⟩
      rw [List.filter_cons_of_pos (keptAtCut_iff.mpr ha),
        List.filter_cons_of_pos (keptAtCut_iff.mpr (le_trans ha hc))]
      rw [List.cons_append, ht]
    · have hnil : (a :: l).filter (keptAtCut c1) = [] := by
        apply List.filter_eq_nil_iff.mpr
        intro b hb
        rcases List.mem_cons.mp hb with hba | hb'
        · subst hba
          simp only [keptAtCut_iff]
          exact ha
        · have hab : a.total_time_used ≤ b.total_time_used :=
            List.rel_of_sorted_cons hs b hb'
          simp only [keptAtCut_iff]
          exact fun hk => ha (le_trans hab hk)
      exact ⟨(a :: l).filter (keptAtCut c2), by rw [hnil, List.nil_append]⟩

/-! ## Claim theorems -/

/-- C1: for every list of raw trajectories passed to `df_per_optimizer`,
exactly the first record of each trajectory is excluded, so each trajectory of
length n contributes exactly n-1 rows to the Normalized Series (and a
trajectory holding only the header record contributes zero rows). -/
theorem c1_normalizer_excludes_first_record (key : String) (y_best : ℚ)
    (y_max : Option ℚ) (trajs : List (List TrajRecord)) (rows : List Row)
    (h : df_per_optimizer key trajs y_best y_max = some rows) :
    rows.length = (trajs.map fun t => t.length - 1).sum ∧
    (∀ id traj rs, trajRows key y_best (dfNormalizer y_best y_max) id traj = some rs →
      rs.length = traj.length - 1) :=
  ⟨dfRowsFrom_length h, fun _ _ _ hr => trajRows_length hr⟩

/-- The Normalized Series of the concrete input of `c1_witness`: the
three-record trajectory contributes its two non-header records, the
header-only trajectory contributes nothing. -/
def c1rows : List Row :=
  [{ optimizer := "rs"
     id := 0
     total_time_used := 10
     total_objective_costs := 2
     function_values := ((((5 : ℚ) - 0) / 1 : ℚ) : WithTop ℚ)
     fidel_values := 9
     costs := 2
     start_time := 0
     finish_time := 2 },
   { optimizer := "rs"
     id := 0
     total_time_used := 10
     total_objective_costs := 2
     function_values := ((((5 : ℚ) - 0) / 1 : ℚ) : WithTop ℚ)
     fidel_values := 9
     costs := 2
     start_time := 0
     finish_time := 2 }]

theorem c1_witness :
    df_per_optimizer "rs" [[sampleRec, sampleRec, sampleRec], [sampleRec]] 0 none =
        some c1rows ∧
    c1rows.length = ([[sampleRec, sampleRec, sampleRec], [sampleRec]].map
      fun t => t.length - 1).sum :=
  ⟨rfl, (c1_normalizer_excludes_first_record "rs" 0 none
    [[sampleRec, sampleRec, sampleRec], [sampleRec]] c1rows rfl).1⟩

/-- C2: for every record, the normalizer computes `function_values` as
`(function_value - y_best) / normalizer` with `normalizer = 1` when no
`y_max` is given and `normalizer = y_max - y_best` otherwise; in particular,
when `y_best = 0` and `y_max` is absent, the normalized value equals the raw
objective value. -/
theorem c2_regret_normalization (key : String) (id : Nat) (y_best : ℚ)
    (y_max : Option ℚ) (r : TrajRecord) (row : Row)
    (h : recordToRow key id y_best (dfNormalizer y_best y_max) r = some row) :
    row.function_values =
        (((r.function_value - y_best) / dfNormalizer y_best y_max : ℚ) : WithTop ℚ) ∧
    (y_max = none → dfNormalizer y_best y_max = 1) ∧
    (∀ m, y_max = some m → dfNormalizer y_best y_max = m - y_best) ∧
    (y_best = 0 → y_max = none → row.function_values = ((r.function_value : ℚ) : WithTop ℚ)) := by
  cases hfe : fidelExtract r.fidelity with
  | none => rw [recordToRow, hfe] at h; exact absurd h (by simp)
  | some fv =>
    rw [recordToRow, hfe] at h
    simp only [Option.map, Option.bind, Option.some.injEq] at h
    subst h
    refine ⟨rfl, fun hm => by rw [hm]; rfl, fun m hm => by rw [hm]; rfl, fun h0 hm => ?_⟩
    subst h0
    rw [hm]
    show (((r.function_value - 0) / dfNormalizer 0 none : ℚ) : WithTop ℚ) = _
    norm_num [dfNormalizer]

/-- The row `recordToRow` produces from `sampleRec` with `y_best = 0` and no
`y_max`. -/
def c2row : Row :=
  { optimizer := "rs"
    id := 0
    total_time_used := 10
    total_objective_costs := 2
    function_values := ((((5 : ℚ) - 0) / 1 : ℚ) : WithTop ℚ)
    fidel_values := 9
    costs := 2
    start_time := 0
    finish_time := 2 }

theorem c2_witness :
    c2row.function_values = ((sampleRec.function_value : ℚ) : WithTop ℚ) :=
  (c2_regret_normalization "rs" 0 0 none sampleRec c2row rfl).2.2.2 rfl rfl

/-- C7 counterexample: on a fidelity mapping with two entries, the extraction
used by the normalizer and the correlation engine does not fail: it silently
returns the value of the first key. -/
theorem c7_counterexample :
    fidelExtract [("epoch", (3 : ℚ)), ("subsample", 5)] = some 3 ∧
    ([("epoch", (3 : ℚ)), ("subsample", 5)] : List (String × ℚ)).length ≠ 1 :=
  ⟨rfl, by decide⟩

/-- C7 amended: fidelity extraction fails exactly when the mapping has zero
entries; with at least one entry it succeeds and returns the value of the
first entry — on a mapping with more than one entry it silently picks the
first key instead of failing. -/
theorem c7_fidelity_extraction (fid : List (String × ℚ)) :
    (fidelExtract fid = none ↔ fid = []) ∧
    ∀ k v rest, fid = (k, v) :: rest → fidelExtract fid = some v := by
  constructor
  · cases fid with
    | nil => simp [fidelExtract]
    | cons a l => cases a; simp [fidelExtract]
  · intro k v rest h
    subst h
    rfl

theorem c7_witness : fidelExtract [("budget", (9 : ℚ))] = some 9 :=
  (c7_fidelity_extraction [("budget", (9 : ℚ))]).2 "budget" 9 [] rfl

/-- C8 counterexample: when a benchmark directory is absent,
`save_median_table_tabular` does not skip the benchmark (the `continue` is
commented out), and `plot_fidels` raises an `AssertionError` instead of
logging and skipping. -/
theorem c8_counterexample :
    (tabularDirHandling false).skipped = false ∧
    plotFidelsDirCheck false = Except.error "AssertionError" :=
  ⟨rfl, rfl⟩

/-- C8 amended: when a benchmark's input directory is absent,
`save_median_table_tabular` prints the failure but still processes that
benchmark (no skip; every benchmark of the batch is handled), while
`plot_fidels` fails its directory assertion and aborts its invocation. -/
theorem c8_dir_handling :
    (∀ e : Bool, (tabularDirHandling e).reported = ! e ∧
      (tabularDirHandling e).skipped = false) ∧
    (∀ benchs : List (String × Bool), (tabularBatch benchs).length = benchs.length) ∧
    plotFidelsDirCheck false = Except.error "AssertionError" ∧
    plotFidelsDirCheck true = Except.ok () :=
  ⟨fun _ => ⟨rfl, rfl⟩, fun benchs => by simp [tabularBatch], rfl, rfl⟩

/-- C3 counterexample: for a concrete one-row seed series and budget cut 100,
the synthetic row appended by the aligner/truncator has `total_time_used = 0`
(not 1 second as claimed), `costs = 0` (the infinite field is
`function_values`, not the cost), and `finish_time = 1`. -/
theorem c3_counterexample :
    truncateSeed "rs" 0 100 [earlyRow] =
        [sentinelRow "rs" 0 (fidelMax [earlyRow]), earlyRow] ∧
    (sentinelRow "rs" 0 (fidelMax [earlyRow])).total_time_used = 0 ∧
    (sentinelRow "rs" 0 (fidelMax [earlyRow])).total_time_used ≠ 1 ∧
    (sentinelRow "rs" 0 (fidelMax [earlyRow])).costs = 0 ∧
    (sentinelRow "rs" 0 (fidelMax [earlyRow])).function_values = ⊤ :=
  ⟨by decide, rfl, by decide, rfl, rfl⟩

/-- C3 amended: for every per-seed series, the aligner/truncator appends
exactly one synthetic sentinel row whose `total_time_used` is 0, whose
`function_values` entry is infinite, whose `costs` entry is 0, whose
`finish_time` is 1 second, and whose fidelity value is the seed's maximum
observed fidelity; it then sorts ascending by `total_time_used` and drops
every row with `total_time_used > cut_time_step`, taking the surviving last
row as the incumbent at the budget. -/
theorem c3_truncation_algorithm (key : String) (id : Nat) (cut : ℚ) (rows : List Row) :
    List.Sorted ttuLE (truncateSeed key id cut rows) ∧
    (∀ r ∈ truncateSeed key id cut rows, r.total_time_used ≤ cut) ∧
    (truncateSeed key id cut rows).Perm
      ((rows ++ [sentinelRow key id (fidelMax rows)]).filter (keptAtCut cut)) ∧
    (sentinelRow key id (fidelMax rows)).total_time_used = 0 ∧
    (sentinelRow key id (fidelMax rows)).function_values = ⊤ ∧
    (sentinelRow key id (fidelMax rows)).costs = 0 ∧
    (sentinelRow key id (fidelMax rows)).finish_time = 1 ∧
    (sentinelRow key id (fidelMax rows)).fidel_values = fidelMax rows ∧
    ∀ r, (truncateSeed key id cut rows).getLast? = some r →
      lastInc key id cut rows = [r] := by
  refine ⟨truncateSeed_sorted key id cut rows, fun r hr => truncateSeed_mem_le hr,
    truncateSeed_perm key id cut rows, rfl, rfl, rfl, rfl, rfl, ?_⟩
  intro r hr
  unfold lastInc tail1
  rw [hr]

theorem c3_witness :
    lastInc "rs" 0 100 [earlyRow] = [earlyRow] :=
  (c3_truncation_algorithm "rs" 0 100 [earlyRow]).2.2.2.2.2.2.2.2 earlyRow (by decide)

/-- C4: for every per-seed series and every pair of thresholds
`thresh1 < thresh2` in (0, 1], the sequence of rows surviving truncation at
`cut_time_step = thresh1 * time_limit_in_s` is a prefix, in `total_time_used`
order, of the sequence surviving truncation at `thresh2 * time_limit_in_s`. -/
theorem c4_truncation_monotone (key : String) (id : Nat) (rows : List Row)
    (thresh1 thresh2 time_limit_in_s : ℚ) (h0 : 0 < thresh1) (h12 : thresh1 < thresh2)
    (h2 : thresh2 ≤ 1) (ht : 0 ≤ time_limit_in_s) :
    ∃ t, truncateSeed key id (thresh1 * time_limit_in_s) rows ++ t =
        truncateSeed key id (thresh2 * time_limit_in_s) rows := by
  have hc : thresh1 * time_limit_in_s ≤ thresh2 * time_limit_in_s :=
    mul_le_mul_of_nonneg_right h12.le ht
  exact filter_cut_le_cut hc _ (List.sorted_insertionSort ttuLE _)

theorem c4_witness :
    ∃ t, truncateSeed "rs" 0 ((1 : ℚ) / 2 * 10) [earlyRow, lateRow] ++ t =
        truncateSeed "rs" 0 (1 * 10) [earlyRow, lateRow] :=
  c4_truncation_monotone "rs" 0 [earlyRow, lateRow] ((1 : ℚ) / 2) 1 10
    one_half_pos one_half_lt_one le_rfl (by decide)

/-- C6 (evidence for the code bug): for a seed whose only real record lies
beyond the budget cut, the code prints nothing — `reportsNotEnoughRuns` is
`false` because the sentinel makes `len(last_inc) < 1` unreachable — and the
seed still contributes a data point: the sentinel row, with infinite
`function_values`, is the surviving last row appended to the aggregate
frame. -/
theorem c6_insufficient_data_not_reported :
    reportsNotEnoughRuns "rs" 0 100 [lateRow] = false ∧
    lastInc "rs" 0 100 [lateRow] = [sentinelRow "rs" 0 (fidelMax [lateRow])] ∧
    (sentinelRow "rs" 0 (fidelMax [lateRow])).function_values = ⊤ :=
  ⟨by decide, by decide, rfl⟩

/-- C10: for every per-seed series and every `cut_time_step` derived from a
threshold in (0, 1] and a positive time limit, the series after appending the
sentinel row and dropping rows with `total_time_used > cut_time_step` is never
empty — the sentinel always survives — so the branch reporting fewer than one
surviving row is unreachable. -/
theorem c10_sentinel_survives (key : String) (id : Nat) (rows : List Row)
    (thresh time_limit_in_s : ℚ) (h0 : 0 < thresh) (h1 : thresh ≤ 1)
    (ht : 0 < time_limit_in_s) :
    truncateSeed key id (thresh * time_limit_in_s) rows ≠ [] ∧
    reportsNotEnoughRuns key id (thresh * time_limit_in_s) rows = false := by
  have hcut : (0 : ℚ) < thresh * time_limit_in_s := mul_pos h0 ht
  have hmem : sentinelRow key id (fidelMax rows) ∈
      truncateSeed key id (thresh * time_limit_in_s) rows := by
    unfold truncateSeed
    apply List.mem_filter.mpr
    refine ⟨?_, keptAtCut_iff.mpr ?_⟩
    · unfold sortTTU
      rw [List.mem_insertionSort]
      exact List.mem_append_right _ (List.mem_singleton_self _)
    · show (0 : ℚ) ≤ thresh * time_limit_in_s
      exact hcut.le
  have hne : truncateSeed key id (thresh * time_limit_in_s) rows ≠ [] :=
    List.ne_nil_of_mem hmem
  refine ⟨hne, ?_⟩
  obtain ⟨r, hr⟩ := Option.isSome_iff_exists.mp (List.getLast?_isSome.mpr hne)
  unfold reportsNotEnoughRuns lastInc tail1
  rw [hr]
  simp

theorem c10_witness :
    truncateSeed "rs" 0 ((1 : ℚ) / 2 * 10) [lateRow] ≠ [] ∧
    reportsNotEnoughRuns "rs" 0 ((1 : ℚ) / 2 * 10) [lateRow] = false :=
  c10_sentinel_survives "rs" 0 [lateRow] ((1 : ℚ) / 2) 10
    one_half_pos one_half_lt_one.le (by decide)

theorem argminList_lt_length : ∀ (v : ℚ) (vs : List ℚ), argminList (v :: vs) < (v :: vs).length
  | _, [] => by simp [argminList]
  | v, w :: vs => by
    have ih := argminList_lt_length w vs
    simp only [List.length_cons] at ih ⊢
    simp only [argminList]
    split
    · omega
    · omega

theorem argminList_le : ∀ (v : ℚ) (vs : List ℚ) (i : Nat), i < (v :: vs).length →
    (v :: vs).getD (argminList (v :: vs)) 0 ≤ (v :: vs).getD i 0
  | v, [], i, h => by
    have hi : i = 0 := by
      simp only [List.length_cons, List.length_nil] at h
      omega
    subst hi
    simp [argminList]
  | v, w :: vs, i, h => by
    have hi : i = 0 ∨ ∃ j, i = j + 1 ∧ j < (w :: vs).length := by
      cases i with
      | zero => exact Or.inl rfl
      | succ j =>
        refine Or.inr ⟨j, rfl, ?_⟩
        simp only [List.length_cons] at h ⊢
        omega
    simp only [argminList]
    by_cases hlt : (w :: vs).getD (argminList (w :: vs)) 0 < v
    · rw [if_pos hlt, List.getD_cons_succ]
      rcases hi with rfl | ⟨j, rfl, hj⟩
      · rw [List.getD_cons_zero]
        exact hlt.le
      · rw [List.getD_cons_succ]
        exact argminList_le w vs j hj
    · rw [if_neg hlt, List.getD_cons_zero]
      rcases hi with rfl | ⟨j, rfl, hj⟩
      · rw [List.getD_cons_zero]
      · rw [List.getD_cons_succ]
        exact le_trans (not_lt.mp hlt) (argminList_le w vs j hj)

theorem argminList_first : ∀ (v : ℚ) (vs : List ℚ) (i : Nat), i < argminList (v :: vs) →
    (v :: vs).getD (argminList (v :: vs)) 0 < (v :: vs).getD i 0
  | _, [], i, h => by simp [argminList] at h
  | v, w :: vs, i, h => by
    simp only [argminList] at h ⊢
    by_cases hlt : (w :: vs).getD (argminList (w :: vs)) 0 < v
    · rw [if_pos hlt] at h ⊢
      rw [List.getD_cons_succ]
      cases i with
      | zero =>
        rw [List.getD_cons_zero]
        exact hlt
      | succ j =>
        rw [List.getD_cons_succ]
        exact argminList_first w vs j (by omega)
    · rw [if_neg hlt] at h
      exact absurd h (Nat.not_lt_zero i)

theorem getD_map_snd (table : List (String × ℚ)) (j : Nat) (hj : j < table.length) :
    (table.map Prod.snd).getD j 0 = (table.get ⟨j, hj⟩).2 := by
  rw [List.getD_eq_getElem _ _ (by simpa [List.length_map] using hj)]
  simp

theorem getD_map_fst (table : List (String × ℚ)) (j : Nat) (hj : j < table.length) :
    (table.map Prod.fst).getD j "" = (table.get ⟨j, hj⟩).1 := by
  rw [List.getD_eq_getElem _ _ (by simpa [List.length_map] using hj)]
  simp

/-- C5: after averaging per-benchmark medians into one score per optimizer,
the optimizer selected as best (and wrapped in the bold-markup token) is the
one with the minimum averaged median; when several optimizers tie at the
minimum, the one at the lowest index in the insertion order of the result
table wins.  The hypothesis `hs` records that the pandas result table is
indexed in sorted optimizer order (its index comes from `groupby`, which
sorts group keys). -/
theorem c5_best_optimizer_first_argmin (table : List (String × ℚ)) (hne : table ≠ [])
    (hs : List.Sorted (fun a b : String => a ≤ b) (table.map Prod.fst)) :
    ∃ hk : argminList (table.map Prod.snd) < table.length,
      bestOpt table = (table.get ⟨argminList (table.map Prod.snd), hk⟩).1 ∧
      (∀ j (hj : j < table.length),
        (table.get ⟨argminList (table.map Prod.snd), hk⟩).2 ≤ (table.get ⟨j, hj⟩).2) ∧
      (∀ j (hj : j < table.length),
        (table.get ⟨j, hj⟩).2 = (table.get ⟨argminList (table.map Prod.snd), hk⟩).2 →
          argminList (table.map Prod.snd) ≤ j) ∧
      markBest table (bestOpt table) "median" = "textbf\x7bmedian\x7d" ∧
      (∀ opt, opt ≠ bestOpt table → markBest table opt "median" = "median") := by
  obtain ⟨p, ps, rfl⟩ : ∃ p ps, table = p :: ps := by
    cases table with
    | nil => exact absurd rfl hne
    | cons p ps => exact ⟨p, ps, rfl⟩
  have hk : argminList ((p :: ps).map Prod.snd) < (p :: ps).length := by
    have h := argminList_lt_length p.2 (ps.map Prod.snd)
    simpa [List.length_map] using h
  refine ⟨hk, ?_, ?_, ?_, ?_, ?_⟩
  · unfold bestOpt optKeysSorted
    rw [List.Sorted.insertionSort_eq hs]
    exact getD_map_fst (p :: ps) _ hk
  · intro j hj
    have h := argminList_le p.2 (ps.map Prod.snd) j
      (by simpa [List.length_map] using hj)
    have h2 : ((p :: ps).map Prod.snd).getD (argminList ((p :: ps).map Prod.snd)) 0 ≤
        ((p :: ps).map Prod.snd).getD j 0 := h
    rwa [getD_map_snd _ _ hk, getD_map_snd _ _ hj] at h2
  · intro j hj hval
    by_contra hcon
    push_neg at hcon
    have h := argminList_first p.2 (ps.map Prod.snd) j hcon
    have h2 : ((p :: ps).map Prod.snd).getD (argminList ((p :: ps).map Prod.snd)) 0 <
        ((p :: ps).map Prod.snd).getD j 0 := h
    rw [getD_map_snd _ _ hk, getD_map_snd _ _ hj] at h2
    rw [hval] at h2
    exact lt_irrefl _ h2
  · simp [markBest]
  · intro opt hopt
    simp [markBest, hopt]

/-- The result table of the C5 witness: a single optimizer with averaged
median 3. -/
def c5table : List (String × ℚ) := [("smac", 3)]

theorem c5_witness :
    ∃ hk : argminList (c5table.map Prod.snd) < c5table.length,
      bestOpt c5table = (c5table.get ⟨argminList (c5table.map Prod.snd), hk⟩).1 ∧
      (∀ j (hj : j < c5table.length),
        (c5table.get ⟨argminList (c5table.map Prod.snd), hk⟩).2 ≤
          (c5table.get ⟨j, hj⟩).2) ∧
      (∀ j (hj : j < c5table.length),
        (c5table.get ⟨j, hj⟩).2 =
            (c5table.get ⟨argminList (c5table.map Prod.snd), hk⟩).2 →
          argminList (c5table.map Prod.snd) ≤ j) ∧
      markBest c5table (bestOpt c5table) "median" = "textbf\x7bmedian\x7d" ∧
      (∀ opt, opt ≠ bestOpt c5table → markBest c5table opt "median" = "median") :=
  c5_best_optimizer_first_argmin c5table (by simp [c5table]) (by simp [c5table])

theorem sorted_keyPairLT_of_nodup {l : List (String × Int)}
    (hs : List.Sorted keyPairLE l) (hnd : (l.map Prod.fst).Nodup) :
    List.Sorted keyPairLT l := by
  have h1 : l.Pairwise (fun a b : String × Int => a.1 ≠ b.1) := List.pairwise_map.mp hnd
  exact (hs.and h1).imp fun h => lt_of_le_of_ne h.1 h.2

theorem sortKeys_eq_of_perm {cfg1 cfg2 : List (String × Int)} (hp : cfg1.Perm cfg2)
    (hnd : (cfg1.map Prod.fst).Nodup) :
    List.insertionSort keyPairLE cfg1 = List.insertionSort keyPairLE cfg2 := by
  have hps : (List.insertionSort keyPairLE cfg1).Perm (List.insertionSort keyPairLE cfg2) :=
    ((List.perm_insertionSort keyPairLE cfg1).trans hp).trans
      (List.perm_insertionSort keyPairLE cfg2).symm
  have hnd1 : ((List.insertionSort keyPairLE cfg1).map Prod.fst).Nodup :=
    (((List.perm_insertionSort keyPairLE cfg1).map Prod.fst).nodup_iff).mpr hnd
  have hnd2 : ((List.insertionSort keyPairLE cfg2).map Prod.fst).Nodup :=
    ((hps.map Prod.fst).nodup_iff).mp hnd1
  exact List.eq_of_perm_of_sorted hps
    (sorted_keyPairLT_of_nodup (List.sorted_insertionSort keyPairLE cfg1) hnd1)
    (sorted_keyPairLT_of_nodup (List.sorted_insertionSort keyPairLE cfg2) hnd2)

/-- C9: the configuration fingerprint used by the correlation engine is
order-independent: two configuration mappings holding the same key-value
pairs in any insertion order (with the keys distinct, as in a Python dict)
produce identical fingerprints, so their fidelity-to-value observations are
merged under one entry of the correlation table. -/
theorem c9_fingerprint_order_independent (cfg1 cfg2 : List (String × Int))
    (hp : cfg1.Perm cfg2) (hnd : (cfg1.map Prod.fst).Nodup) :
    fingerprint cfg1 = fingerprint cfg2 ∧
    ∀ (conf_dc : List (String × List (ℚ × ℚ))) (f v : ℚ),
      dcInsert (fingerprint cfg1) f v conf_dc = dcInsert (fingerprint cfg2) f v conf_dc := by
  have he : fingerprint cfg1 = fingerprint cfg2 := by
    unfold fingerprint
    rw [sortKeys_eq_of_perm hp hnd]
  exact ⟨he, fun conf_dc f v => by rw [he]⟩

theorem c9_witness :
    fingerprint [("x", (1 : Int)), ("y", 2)] = fingerprint [("y", (2 : Int)), ("x", 1)] ∧
    dcInsert (fingerprint [("x", (1 : Int)), ("y", 2)]) 1 5 [] =
      dcInsert (fingerprint [("y", (2 : Int)), ("x", 1)]) 1 5 [] :=
  ⟨(c9_fingerprint_order_independent [("x", 1), ("y", 2)] [("y", 2), ("x", 1)]
      (by decide) (by decide)).1,
    (c9_fingerprint_order_independent [("x", 1), ("y", 2)] [("y", 2), ("x", 1)]
      (by decide) (by decide)).2 [] 1 5⟩

end HPOBench
